import Mathlib

/-
Verification of the knut journal-processing pipeline.

This file is a shallow embedding, in Lean 4, of the parts of the knut
double-entry accounting engine that the verified properties are about:

* the exact-decimal arithmetic used for all monetary amounts,
* the account and posting data model (lib/journal/ast/directive.go),
* the balancer (lib/journal/process/balancer.go, and the slice-pipeline
  variant of the same stage),
* the valuation (gain) stage of journal.Balance (lib/journal/process.go),
* the accrual expansion (Accrual.Expand in lib/journal/ast/directive.go),
* the account/commodity filter of the AST assembler (ASTBuilder.Source2).

Every definition mirrors the corresponding Go function; definitions for
repository code that is not part of the source snapshot (the amounts map
helpers, the transaction comparison used for sorting, the decimal library
contract) carry a doc comment saying what they are modelled from.
-/

namespace Knut

/-- Modelled from the spec: exact decimal arithmetic (the shopspring/decimal
library, external to the repository; the spec requires that all monetary
arithmetic uses exact decimal).  A decimal is an integer mantissa together
with a decimal scale: the represented number is num / 10 ^ exp.  All
operations below are exact, and all predicates (equality, zero test, sign
test, comparison) are numeric, as in the library. -/
structure Dec where
  num : ℤ
  exp : ℕ
deriving DecidableEq, Repr

/-- The rational number represented by a decimal. -/
def Dec.val (a : Dec) : ℚ := (a.num : ℚ) / 10 ^ a.exp

/-- Decimal from an integer. -/
def Dec.ofInt (n : ℤ) : Dec := ⟨n, 0⟩

/-- Exact decimal addition (align scales, add mantissas). -/
def Dec.add (a b : Dec) : Dec := ⟨a.num * 10 ^ b.exp + b.num * 10 ^ a.exp, a.exp + b.exp⟩

/-- Decimal negation. -/
def Dec.neg (a : Dec) : Dec := ⟨-a.num, a.exp⟩

/-- Decimal subtraction. -/
def Dec.sub (a b : Dec) : Dec := a.add b.neg

/-- Exact decimal multiplication. -/
def Dec.mul (a b : Dec) : Dec := ⟨a.num * b.num, a.exp + b.exp⟩

/-- Numeric zero test (shopspring IsZero). -/
def Dec.isZero (a : Dec) : Bool := a.num = 0

/-- Numeric sign test (shopspring IsNegative). -/
def Dec.isNegative (a : Dec) : Bool := a.num < 0

/-- Numeric equality (shopspring Equal / Equals). -/
def Dec.equal (a b : Dec) : Bool := a.num * 10 ^ b.exp = b.num * 10 ^ a.exp

/-- Numeric strict comparison (shopspring LessThan). -/
def Dec.lessThan (a b : Dec) : Bool := a.num * 10 ^ b.exp < b.num * 10 ^ a.exp

theorem Dec.val_def (a : Dec) : a.val = (a.num : ℚ) / 10 ^ a.exp := rfl

theorem Dec.pow_ten_ne_zero (e : ℕ) : ((10 : ℚ) ^ e) ≠ 0 := by positivity

theorem Dec.val_add (a b : Dec) : (a.add b).val = a.val + b.val := by
  simp only [Dec.val, Dec.add]
  rw [div_add_div _ _ (Dec.pow_ten_ne_zero a.exp) (Dec.pow_ten_ne_zero b.exp), pow_add]
  push_cast
  ring_nf

theorem Dec.val_neg (a : Dec) : a.neg.val = -a.val := by
  simp only [Dec.val, Dec.neg]
  push_cast
  ring

theorem Dec.val_sub (a b : Dec) : (a.sub b).val = a.val - b.val := by
  simp only [Dec.sub, Dec.val_add, Dec.val_neg]
  ring

theorem Dec.val_mul (a b : Dec) : (a.mul b).val = a.val * b.val := by
  simp only [Dec.val, Dec.mul]
  rw [div_mul_div_comm, ← pow_add]
  push_cast
  ring_nf

theorem Dec.val_ofInt (n : ℤ) : (Dec.ofInt n).val = (n : ℚ) := by
  simp [Dec.val, Dec.ofInt]

theorem Dec.isZero_iff (a : Dec) : a.isZero = true ↔ a.val = 0 := by
  simp only [Dec.isZero, Dec.val, decide_eq_true_eq]
  constructor
  · intro h; simp [h]
  · intro h
    have h10 := Dec.pow_ten_ne_zero a.exp
    field_simp at h
    exact_mod_cast h

theorem Dec.equal_iff (a b : Dec) : a.equal b = true ↔ a.val = b.val := by
  simp only [Dec.equal, Dec.val, decide_eq_true_eq]
  rw [div_eq_div_iff (Dec.pow_ten_ne_zero a.exp) (Dec.pow_ten_ne_zero b.exp)]
  constructor
  · intro h; exact_mod_cast h
  · intro h; exact_mod_cast h

theorem Dec.isNegative_iff (a : Dec) : a.isNegative = true ↔ a.val < 0 := by
  simp only [Dec.isNegative, Dec.val, decide_eq_true_eq]
  rw [div_neg_iff]
  have h10 : (0 : ℚ) < 10 ^ a.exp := by positivity
  constructor
  · intro h
    exact Or.inr ⟨by exact_mod_cast h, h10⟩
  · rintro (⟨_, h⟩ | ⟨h, _⟩)
    · exact absurd h10 (not_lt.mpr h.le)
    · exact_mod_cast h

theorem Dec.lessThan_iff (a b : Dec) : a.lessThan b = true ↔ a.val < b.val := by
  simp only [Dec.lessThan, Dec.val, decide_eq_true_eq]
  have ha : (0 : ℚ) < 10 ^ a.exp := by positivity
  have hb : (0 : ℚ) < 10 ^ b.exp := by positivity
  rw [div_lt_div_iff₀ ha hb]
  constructor
  · intro h; exact_mod_cast h
  · intro h; exact_mod_cast h

/-! Account model (lib/journal: accounts are interned by fully qualified
colon-separated name; the account type is derived from the root segment). -/

/-- The five account types, derived from the root segment of the name
(journal.ASSETS .. journal.EXPENSES). -/
inductive AccountType
  | ASSETS
  | LIABILITIES
  | EQUITY
  | INCOME
  | EXPENSES
deriving DecidableEq, Repr

/-- Name of the root segment of an account of the given type. -/
def AccountType.rootSegment : AccountType → String
  | .ASSETS => "Assets"
  | .LIABILITIES => "Liabilities"
  | .EQUITY => "Equity"
  | .INCOME => "Income"
  | .EXPENSES => "Expenses"

/-- An account: the root segment (equivalently, the account type, which the
source derives from it) together with the remaining name segments.  Accounts
are interned in the source, so pointer equality there is name equality;
here equality of this structure plays that role. -/
structure Account where
  typ : AccountType
  segments : List String
deriving DecidableEq, Repr

/-- Fully qualified account name, as printed by Account.String(). -/
def Account.name (a : Account) : String :=
  String.intercalate ":" (a.typ.rootSegment :: a.segments)

/-- Account.Type() of the source: the type derived from the root segment. -/
def Account.type (a : Account) : AccountType := a.typ

/-- isAL of lib/journal/ast/directive.go: assets or liabilities. -/
def isAL (a : Account) : Bool :=
  a.type = AccountType.ASSETS || a.type = AccountType.LIABILITIES

/-- isIE of lib/journal/ast/directive.go: income or expenses. -/
def isIE (a : Account) : Bool :=
  a.type = AccountType.INCOME || a.type = AccountType.EXPENSES

/-- Modelled from the spec: Context.ValuationAccountFor (lib/journal context,
not part of the source snapshot) resolves an account to its designated
valuation sub-account in the EQUITY tree, Equity:Valuation:(segments); the
rule is stable and injective. -/
def valuationAccountFor (a : Account) : Account :=
  ⟨AccountType.EQUITY, "Valuation" :: a.typ.rootSegment :: a.segments⟩

theorem valuationAccountFor_ne (a : Account) : valuationAccountFor a ≠ a := by
  intro h
  have hlen : (valuationAccountFor a).segments.length = a.segments.length := by rw [h]
  simp [valuationAccountFor] at hlen
  omega

/-- A commodity, interned by name. -/
abbrev Commodity := String

/-- Commodity name, as printed by Commodity.String() / Name(). -/
def Commodity.name (k : Commodity) : String := k

/-! Postings and transactions (lib/journal/ast/directive.go). -/

/-- Posting of lib/journal/ast/directive.go: a credit-debit-commodity-amount
tuple; the value field is filled by the valuator and is zero until then. -/
structure Posting where
  credit : Account
  debit : Account
  commodity : Commodity
  amount : Dec
  value : Dec := Dec.ofInt 0
  targets : List Commodity := []
deriving DecidableEq, Repr

/-- NewPosting of directive.go: if the amount is negative, it is inverted
and the accounts reversed. -/
def newPosting (crAccount drAccount : Account) (commodity : Commodity) (amt : Dec) : Posting :=
  if amt.isNegative then
    { credit := drAccount, debit := crAccount, amount := amt.neg, commodity := commodity }
  else
    { credit := crAccount, debit := drAccount, amount := amt, commodity := commodity }

/-- NewPostingWithTargets of directive.go. -/
def newPostingWithTargets (crAccount drAccount : Account) (commodity : Commodity)
    (amt : Dec) (targets : List Commodity) : Posting :=
  { newPosting crAccount drAccount commodity amt with targets := targets }

/-- Transaction of directive.go: date, description, tags, postings.
Dates are modelled as natural numbers (days since some epoch); the balancer
and the comparisons only use equality and order on them. -/
structure Transaction where
  date : ℕ
  description : String
  tags : List String := []
  postings : List Posting
deriving DecidableEq, Repr

/-! The running amounts map of the balancer.  In the source this is
amounts.Amounts, a Go map from (account, commodity) to decimal
(lib/common/amounts, not part of the source snapshot).  Modelled from the
spec: a position map from (account, commodity) keys to signed decimals, in
which a key can be absent (absent and present-with-zero are distinguished,
as for a Go map).  Represented as an association list with unique keys;
Add books into the map creating the key when absent, as m[k] += x does. -/

/-- A position key: (account, commodity). -/
abbrev Position := Account × Commodity

/-- The running position map. -/
abbrev Amounts := List (Position × Dec)

/-- Map lookup: the stored decimal, when the key is present. -/
def Amounts.find? : Amounts → Position → Option Dec
  | [], _ => none
  | (q, v) :: rest, p => if q = p then some v else Amounts.find? rest p

/-- Amounts.Amount of lib/common/amounts: the stored amount, zero when the
key is absent. -/
def Amounts.amount (m : Amounts) (p : Position) : Dec :=
  (m.find? p).getD (Dec.ofInt 0)

/-- Amounts.Add of lib/common/amounts: m[k] += x (inserts the key if absent). -/
def Amounts.add : Amounts → Position → Dec → Amounts
  | [], p, x => [(p, x)]
  | (q, v) :: rest, p, x =>
    if q = p then (q, v.add x) :: rest else (q, v) :: Amounts.add rest p x

/-- Amounts.Book of lib/common/amounts, as exhibited by the slice-variant
balancer: amounts[(credit, k)] -= x; amounts[(debit, k)] += x. -/
def Amounts.book (m : Amounts) (credit debit : Account) (x : Dec) (k : Commodity) : Amounts :=
  (m.add (credit, k) x.neg).add (debit, k) x

/-- Sum, over all positions of the map, of the represented values for one
commodity.  This is the per-commodity double-entry sum of the spec. -/
def Amounts.sumQ (m : Amounts) (k : Commodity) : ℚ :=
  (m.map (fun e => if e.1.2 = k then e.2.val else 0)).sum

/-- The double-entry invariant: every commodity sums to zero over all
positions of the map. -/
def ZeroSum (m : Amounts) : Prop := ∀ k : Commodity, m.sumQ k = 0

theorem Amounts.sumQ_add (m : Amounts) (p : Position) (x : Dec) (k : Commodity) :
    (m.add p x).sumQ k = m.sumQ k + (if p.2 = k then x.val else 0) := by
  induction m with
  | nil => simp [Amounts.add, Amounts.sumQ]
  | cons e rest ih =>
    obtain ⟨q, v⟩ := e
    by_cases hq : q = p
    · subst hq
      simp only [Amounts.add, if_pos rfl, Amounts.sumQ, List.map_cons, List.sum_cons]
      by_cases hk : q.2 = k
      · simp [hk, Dec.val_add, Amounts.sumQ]; ring
      · simp [hk, Amounts.sumQ]
    · simp only [Amounts.add, if_neg hq, Amounts.sumQ, List.map_cons, List.sum_cons]
      have := ih
      simp only [Amounts.sumQ] at this
      rw [this]
      ring

theorem Amounts.sumQ_book (m : Amounts) (c d : Account) (x : Dec) (k k' : Commodity) :
    (m.book c d x k).sumQ k' = m.sumQ k' := by
  simp only [Amounts.book, Amounts.sumQ_add, Dec.val_neg]
  by_cases hk : k = k' <;> simp [hk]

theorem ZeroSum.book {m : Amounts} (h : ZeroSum m) (c d : Account) (x : Dec) (k : Commodity) :
    ZeroSum (m.book c d x k) := by
  intro k'
  rw [Amounts.sumQ_book]
  exact h k'

/-! Directive records used by the balancer (lib/journal/ast/directive.go). -/

/-- Open directive: date and account. -/
structure OpenDir where
  date : ℕ
  account : Account
deriving DecidableEq, Repr

/-- Close directive: date and account. -/
structure CloseDir where
  date : ℕ
  account : Account
deriving DecidableEq, Repr

/-- Value directive: date, account, amount, commodity. -/
structure ValueDir where
  date : ℕ
  account : Account
  amount : Dec
  commodity : Commodity
deriving DecidableEq, Repr

/-- Assertion (balance) directive: date, account, amount, commodity. -/
structure AssertionDir where
  date : ℕ
  account : Account
  amount : Dec
  commodity : Commodity
deriving DecidableEq, Repr

/-- A Day: the directives of one calendar date, plus the amounts snapshot
slot filled by the balancer. -/
structure Day where
  date : ℕ
  openings : List OpenDir := []
  transactions : List Transaction := []
  values : List ValueDir := []
  assertions : List AssertionDir := []
  closings : List CloseDir := []
  amounts : Amounts := []
deriving DecidableEq, Repr

/-! The balancer (lib/journal/process/balancer.go).  Its open-account set is
the type accounts, a Go map used as a set; here a list of accounts (unique
by construction, since Open refuses accounts already present). -/

/-- The set of currently open accounts (type accounts of balancer.go). -/
abbrev AccountSet := List Account

/-- accounts.Open of balancer.go: fails when the account is already open,
otherwise inserts it. -/
def AccountSet.openAcc (oa : AccountSet) (a : Account) : Except String AccountSet :=
  if oa.contains a then .error ("account " ++ a.name ++ " is already open")
  else .ok (a :: oa)

/-- accounts.Close of balancer.go: fails when the account is not in the set,
otherwise removes it.  Note that this checks raw set membership; it does not
use IsOpen. -/
def AccountSet.closeAcc (oa : AccountSet) (a : Account) : Except String AccountSet :=
  if oa.contains a then .ok (oa.erase a)
  else .error ("account " ++ a.name ++ " is already closed")

/-- accounts.IsOpen of balancer.go: an account is open when it is in the
set, or unconditionally when its type is EQUITY. -/
def AccountSet.isOpen (oa : AccountSet) (a : Account) : Bool :=
  oa.contains a || a.type = AccountType.EQUITY

/-- processOpenings of balancer.go: open every account of the Day's Open
directives. -/
def processOpenings (oa : AccountSet) : List OpenDir → Except String AccountSet
  | [] => .ok oa
  | o :: rest => do
    let oa' ← oa.openAcc o.account
    processOpenings oa' rest

/-- The per-posting step of processTransactions of balancer.go: both the
credit and the debit account must be open, then the amount is booked. -/
def bookPosting (oa : AccountSet) (m : Amounts) (p : Posting) : Except String Amounts :=
  if ¬ oa.isOpen p.credit then
    .error ("credit account " ++ p.credit.name ++ " is not open")
  else if ¬ oa.isOpen p.debit then
    .error ("debit account " ++ p.debit.name ++ " is not open")
  else
    .ok (m.book p.credit p.debit p.amount p.commodity)

/-- The postings of one transaction, processed in order. -/
def bookPostings (oa : AccountSet) (m : Amounts) : List Posting → Except String Amounts
  | [] => .ok m
  | p :: rest => do
    let m' ← bookPosting oa m p
    bookPostings oa m' rest

/-- processTransactions of balancer.go. -/
def processTransactions (oa : AccountSet) (m : Amounts) : List Transaction → Except String Amounts
  | [] => .ok m
  | t :: rest => do
    let m' ← bookPostings oa m t.postings
    processTransactions oa m' rest

/-- The per-directive step of processValues of balancer.go: the account must
be open; a posting from its valuation account over the difference between
the declared amount and the running amount is built, booked, and wrapped in
a synthesised single-posting transaction. -/
def processValue (oa : AccountSet) (m : Amounts) (v : ValueDir) :
    Except String (Amounts × Transaction) :=
  if ¬ oa.isOpen v.account then .error "account is not open"
  else
    let valAcc := valuationAccountFor v.account
    let posting := newPostingWithTargets valAcc v.account v.commodity
      (v.amount.sub (m.amount (v.account, v.commodity))) [v.commodity]
    let m' := m.book posting.credit posting.debit posting.amount posting.commodity
    .ok (m', { date := v.date
             , description :=
                 "Valuation adjustment for " ++ v.commodity.name ++ " in " ++ v.account.name
             , tags := []
             , postings := [posting] })

/-- processValues of balancer.go: all Value directives in order, collecting
the synthesised transactions. -/
def processValues (oa : AccountSet) (m : Amounts) :
    List ValueDir → Except String (Amounts × List Transaction)
  | [] => .ok (m, [])
  | v :: rest => do
    let (m', t) ← processValue oa m v
    let (m'', ts) ← processValues oa m' rest
    .ok (m'', t :: ts)

/-- The per-directive step of processAssertions of balancer.go: the account
must be open, the position key must be present in the running amounts map,
and the stored amount must equal the asserted amount exactly. -/
def processAssertion (oa : AccountSet) (m : Amounts) (a : AssertionDir) :
    Except String Unit :=
  if ¬ oa.isOpen a.account then .error "account is not open"
  else
    match m.find? (a.account, a.commodity) with
    | some va =>
      if va.equal a.amount then .ok ()
      else .error ("assertion failed: account " ++ a.account.name ++ " has "
                    ++ toString va.num ++ " " ++ a.commodity.name)
    | none => .error ("assertion failed: account " ++ a.account.name ++ " has "
                    ++ " " ++ a.commodity.name)

/-- processAssertions of balancer.go. -/
def processAssertions (oa : AccountSet) (m : Amounts) :
    List AssertionDir → Except String Unit
  | [] => .ok ()
  | a :: rest => do
    processAssertion oa m a
    processAssertions oa m rest

/-- The per-directive step of processClosings of balancer.go: every position
of the closed account is inspected; a nonzero one is an error, zero ones are
deleted; then the account is removed from the open set (which fails when it
was not there). -/
def processClosing (oa : AccountSet) (m : Amounts) (c : CloseDir) :
    Except String (AccountSet × Amounts) :=
  if (m.filter (fun e => decide (e.1.1 = c.account))).any (fun e => ! e.2.isZero) then
    .error "account has nonzero position"
  else do
    let oa' ← oa.closeAcc c.account
    .ok (oa', m.filter (fun e => ! decide (e.1.1 = c.account)))

/-- processClosings of balancer.go. -/
def processClosings (oa : AccountSet) (m : Amounts) :
    List CloseDir → Except String (AccountSet × Amounts)
  | [] => .ok (oa, m)
  | c :: rest => do
    let (oa', m') ← processClosing oa m c
    processClosings oa' m' rest

/-- The balancer state: the open-account set and the running amounts map. -/
structure BState where
  accounts : AccountSet := []
  amounts : Amounts := []
deriving DecidableEq, Repr

/-- One iteration of the Process2 loop of balancer.go: openings,
transactions, values, assertions, closings, in this order; the synthesised
value-adjustment transactions are then appended to the Day's transactions
(without re-sorting), and the Day receives the amounts snapshot. -/
def processDay (st : BState) (d : Day) : Except String (BState × Day) := do
  let oa ← processOpenings st.accounts d.openings
  let m1 ← processTransactions oa st.amounts d.transactions
  let (m2, vtxns) ← processValues oa m1 d.values
  processAssertions oa m2 d.assertions
  let (oa', m3) ← processClosings oa m2 d.closings
  .ok (⟨oa', m3⟩, { d with transactions := d.transactions ++ vtxns, amounts := m3 })

/-- The whole Process2 run: all Days in order, collecting the emitted Days. -/
def processDays (st : BState) : List Day → Except String (BState × List Day)
  | [] => .ok (st, [])
  | d :: rest => do
    let (st', d') ← processDay st d
    let (stF, ds) ← processDays st' rest
    .ok (stF, d' :: ds)

/-! Preservation of the double-entry zero-sum invariant through the
balancer. -/


instance exceptDecEq {ε α : Type} [DecidableEq ε] [DecidableEq α] :
    DecidableEq (Except ε α) := fun x y =>
  match x, y with
  | .error a, .error b =>
    if h : a = b then isTrue (by rw [h]) else isFalse (by intro hh; injection hh; exact h (by assumption))
  | .error _, .ok _ => isFalse (by intro hh; exact Except.noConfusion hh)
  | .ok _, .error _ => isFalse (by intro hh; exact Except.noConfusion hh)
  | .ok a, .ok b =>
    if h : a = b then isTrue (by rw [h]) else isFalse (by intro hh; injection hh; exact h (by assumption))

theorem exceptBind_ok {α β : Type} {x : Except String α} {f : α → Except String β} {b : β}
    (h : (x >>= f) = .ok b) : ∃ a, x = .ok a ∧ f a = .ok b := by
  cases x with
  | error e => simp [Bind.bind, Except.bind] at h
  | ok a => exact ⟨a, rfl, by simpa [Bind.bind, Except.bind] using h⟩

theorem bookPosting_zeroSum {oa : AccountSet} {m m' : Amounts} {p : Posting}
    (h : bookPosting oa m p = .ok m') (hz : ZeroSum m) : ZeroSum m' := by
  unfold bookPosting at h
  split at h
  · exact absurd h (by simp)
  · split at h
    · exact absurd h (by simp)
    · simp only [Except.ok.injEq] at h
      subst h
      exact hz.book _ _ _ _

theorem bookPostings_zeroSum {oa : AccountSet} {ps : List Posting} :
    ∀ {m m' : Amounts}, bookPostings oa m ps = .ok m' → ZeroSum m → ZeroSum m' := by
  induction ps with
  | nil =>
    intro m m' h hz
    simp only [bookPostings, Except.ok.injEq] at h
    subst h; exact hz
  | cons p rest ih =>
    intro m m' h hz
    rw [bookPostings] at h
    obtain ⟨m1, hb, hrest⟩ := exceptBind_ok h
    exact ih hrest (bookPosting_zeroSum hb hz)

theorem processTransactions_zeroSum {oa : AccountSet} {ts : List Transaction} :
    ∀ {m m' : Amounts}, processTransactions oa m ts = .ok m' → ZeroSum m → ZeroSum m' := by
  induction ts with
  | nil =>
    intro m m' h hz
    simp only [processTransactions, Except.ok.injEq] at h
    subst h; exact hz
  | cons t rest ih =>
    intro m m' h hz
    rw [processTransactions] at h
    obtain ⟨m1, hb, hrest⟩ := exceptBind_ok h
    exact ih hrest (bookPostings_zeroSum hb hz)

theorem processValue_zeroSum {oa : AccountSet} {m m' : Amounts} {v : ValueDir}
    {t : Transaction} (h : processValue oa m v = .ok (m', t)) (hz : ZeroSum m) :
    ZeroSum m' := by
  unfold processValue at h
  split at h
  · exact absurd h (by simp)
  · simp only [Except.ok.injEq, Prod.mk.injEq] at h
    obtain ⟨hm, _⟩ := h
    subst hm
    exact hz.book _ _ _ _

theorem processValues_zeroSum {oa : AccountSet} {vs : List ValueDir} :
    ∀ {m m' : Amounts} {ts : List Transaction},
      processValues oa m vs = .ok (m', ts) → ZeroSum m → ZeroSum m' := by
  induction vs with
  | nil =>
    intro m m' ts h hz
    simp only [processValues, Except.ok.injEq, Prod.mk.injEq] at h
    obtain ⟨hm, _⟩ := h
    subst hm; exact hz
  | cons v rest ih =>
    intro m m' ts h hz
    rw [processValues] at h
    obtain ⟨r1, hb, h2⟩ := exceptBind_ok h
    obtain ⟨m1, t1⟩ := r1
    simp only at h2
    obtain ⟨r2, hrest, h3⟩ := exceptBind_ok h2
    obtain ⟨m2, ts2⟩ := r2
    simp only [Except.ok.injEq, Prod.mk.injEq] at h3
    obtain ⟨hm, _⟩ := h3
    subst hm
    exact ih hrest (processValue_zeroSum hb hz)

theorem sumQ_filter_out_zeros {c : Account} {m : Amounts}
    (h : ∀ e ∈ m, e.1.1 = c → e.2.val = 0) (k : Commodity) :
    Amounts.sumQ (m.filter (fun e => ! decide (e.1.1 = c))) k = Amounts.sumQ m k := by
  induction m with
  | nil => simp
  | cons e rest ih =>
    have hrest : ∀ x ∈ rest, x.1.1 = c → x.2.val = 0 := fun x hx => h x (by simp [hx])
    by_cases hc : e.1.1 = c
    · have hval : e.2.val = 0 := h e (by simp) hc
      have hdec : (! decide (e.1.1 = c)) = false := by simp [hc]
      rw [List.filter_cons, hdec]
      simp only [Bool.false_eq_true, if_false]
      rw [ih hrest]
      simp [Amounts.sumQ, hval]
    · have hdec : (! decide (e.1.1 = c)) = true := by simp [hc]
      rw [List.filter_cons, hdec]
      simp only [if_true]
      have hih := ih hrest
      simp only [Amounts.sumQ] at hih ⊢
      simp only [List.map_cons, List.sum_cons]
      rw [hih]

theorem processClosing_zeroSum {oa oa' : AccountSet} {m m' : Amounts} {c : CloseDir}
    (h : processClosing oa m c = .ok (oa', m')) (hz : ZeroSum m) : ZeroSum m' := by
  unfold processClosing at h
  split at h
  · exact absurd h (by simp)
  · rename_i hguard
    obtain ⟨oa2, hcl, h2⟩ := exceptBind_ok h
    simp only [Except.ok.injEq, Prod.mk.injEq] at h2
    obtain ⟨_, hm⟩ := h2
    subst hm
    intro k
    rw [sumQ_filter_out_zeros _ k]
    · exact hz k
    · intro e he hacc
      by_contra hne
      apply hguard
      rw [List.any_eq_true]
      refine ⟨e, List.mem_filter.mpr ⟨he, by simp [hacc]⟩, ?_⟩
      simp only [Bool.not_eq_eq_eq_not, Bool.not_false]
      cases hh : e.2.isZero
      · rfl
      · exact absurd ((Dec.isZero_iff e.2).mp hh) hne

theorem processClosings_zeroSum {cs : List CloseDir} :
    ∀ {oa oa' : AccountSet} {m m' : Amounts},
      processClosings oa m cs = .ok (oa', m') → ZeroSum m → ZeroSum m' := by
  induction cs with
  | nil =>
    intro oa oa' m m' h hz
    simp only [processClosings, Except.ok.injEq, Prod.mk.injEq] at h
    obtain ⟨_, hm⟩ := h
    subst hm; exact hz
  | cons c rest ih =>
    intro oa oa' m m' h hz
    rw [processClosings] at h
    obtain ⟨r1, hb, h2⟩ := exceptBind_ok h
    obtain ⟨oa1, m1⟩ := r1
    simp only at h2
    exact ih h2 (processClosing_zeroSum hb hz)

theorem processDay_zeroSum {st : BState} {d : Day} {st' : BState} {d' : Day}
    (h : processDay st d = .ok (st', d')) (hz : ZeroSum st.amounts) :
    ZeroSum st'.amounts := by
  unfold processDay at h
  obtain ⟨oa, ho, h1⟩ := exceptBind_ok h
  obtain ⟨m1, ht, h2⟩ := exceptBind_ok h1
  obtain ⟨r1, hv, h3⟩ := exceptBind_ok h2
  obtain ⟨m2, vtxns⟩ := r1
  simp only at h3
  obtain ⟨u, ha, h4⟩ := exceptBind_ok h3
  obtain ⟨r2, hc, h5⟩ := exceptBind_ok h4
  obtain ⟨oa', m3⟩ := r2
  simp only [Except.ok.injEq, Prod.mk.injEq] at h5
  obtain ⟨hst, _⟩ := h5
  subst hst
  exact processClosings_zeroSum hc
    (processValues_zeroSum hv (processTransactions_zeroSum ht hz))

theorem processDays_zeroSum {days : List Day} :
    ∀ {st stF : BState} {ds : List Day},
      processDays st days = .ok (stF, ds) → ZeroSum st.amounts → ZeroSum stF.amounts := by
  induction days with
  | nil =>
    intro st stF ds h hz
    simp only [processDays, Except.ok.injEq, Prod.mk.injEq] at h
    obtain ⟨hst, _⟩ := h
    subst hst; exact hz
  | cons d rest ih =>
    intro st stF ds h hz
    rw [processDays] at h
    obtain ⟨r1, hd, h2⟩ := exceptBind_ok h
    obtain ⟨st1, d1⟩ := r1
    simp only at h2
    obtain ⟨r2, hrest, h3⟩ := exceptBind_ok h2
    obtain ⟨st2, ds2⟩ := r2
    simp only [Except.ok.injEq, Prod.mk.injEq] at h3
    obtain ⟨hst, _⟩ := h3
    subst hst
    exact ih hrest (processDay_zeroSum hd hz)


/-! Concrete accounts, commodities and days used by the witnesses. -/

def cashAcc : Account := ⟨AccountType.ASSETS, ["Cash"]⟩

def salaryAcc : Account := ⟨AccountType.INCOME, ["Salary"]⟩

def equityMiscAcc : Account := ⟨AccountType.EQUITY, ["Misc"]⟩

def usd : Commodity := "USD"

/-- The witness day for the conservation claim: open two accounts and book
one 100 USD posting between them. -/
def c1day : Day :=
  { date := 1
  , openings := [⟨1, cashAcc⟩, ⟨1, salaryAcc⟩]
  , transactions := [⟨1, "Pay", [], [⟨salaryAcc, cashAcc, usd, ⟨100, 0⟩, ⟨0, 0⟩, []⟩]⟩] }

/-- The balancer state after processing the witness day. -/
def c1state : BState :=
  ⟨[salaryAcc, cashAcc]
  , [((salaryAcc, usd), ⟨-100, 0⟩), ((cashAcc, usd), ⟨100, 0⟩)]⟩

/-- The day emitted by the balancer for the witness day. -/
def c1emitted : Day :=
  { date := 1
  , openings := [⟨1, cashAcc⟩, ⟨1, salaryAcc⟩]
  , transactions := [⟨1, "Pay", [], [⟨salaryAcc, cashAcc, usd, ⟨100, 0⟩, ⟨0, 0⟩, []⟩]⟩] ++ []
  , amounts := [((salaryAcc, usd), ⟨-100, 0⟩), ((cashAcc, usd), ⟨100, 0⟩)] }

/-- C1: for a pipeline run of the balancer (which runs without a valuation
commodity), starting from the empty seed state, after all Days have been
processed the running amounts map sums to zero in every commodity over all
positions (EQUITY-rooted accounts plus asset/liability and income/expense
accounts combined, since the sum ranges over every account); moreover every
single booking, including the one synthesised for a Value directive,
preserves this zero sum. -/
theorem C1_double_entry_conservation :
    (∀ (days : List Day) (stF : BState) (ds : List Day),
        processDays ⟨[], []⟩ days = .ok (stF, ds) →
        ∀ k : Commodity, Amounts.sumQ stF.amounts k = 0)
    ∧ (∀ (m : Amounts) (c d : Account) (x : Dec) (k : Commodity),
        ZeroSum m → ZeroSum (m.book c d x k)) := by
  constructor
  · intro days stF ds h k
    have h0 : ZeroSum ([] : Amounts) := by intro k'; simp [Amounts.sumQ]
    exact processDays_zeroSum h h0 k
  · intro m c d x k hz
    exact hz.book c d x k

/-- Witness for C1: the conservation theorem applied to a concrete
single-day run. -/
theorem C1_witness :
    Amounts.sumQ c1state.amounts usd = 0 ∧
    ZeroSum (Amounts.book [] cashAcc salaryAcc ⟨5, 0⟩ usd) :=
  ⟨C1_double_entry_conservation.1 [c1day] c1state [c1emitted] (by decide) usd
  , C1_double_entry_conservation.2 [] cashAcc salaryAcc ⟨5, 0⟩ usd
      (by intro k'; simp [Amounts.sumQ])⟩


/-! Lookup behaviour of the amounts map under booking. -/

theorem Amounts.amount_nil (p : Position) : Amounts.amount [] p = Dec.ofInt 0 := rfl

theorem Amounts.amount_add_self (m : Amounts) (p : Position) (x : Dec) :
    ((m.add p x).amount p).val = (m.amount p).val + x.val := by
  induction m with
  | nil =>
    simp [Amounts.add, Amounts.amount, Amounts.find?, Dec.val_ofInt]
  | cons e rest ih =>
    obtain ⟨q, v⟩ := e
    by_cases hq : q = p
    · subst hq
      simp [Amounts.add, Amounts.amount, Amounts.find?, Dec.val_add]
    · simp only [Amounts.add, if_neg hq]
      simpa [Amounts.amount, Amounts.find?, hq] using ih

theorem Amounts.amount_add_other (m : Amounts) {p q : Position} (x : Dec) (h : q ≠ p) :
    (m.add q x).amount p = m.amount p := by
  induction m with
  | nil => simp [Amounts.add, Amounts.amount, Amounts.find?, h]
  | cons e rest ih =>
    obtain ⟨r, v⟩ := e
    by_cases hr : r = q
    · subst hr
      simp [Amounts.add, Amounts.amount, Amounts.find?, h]
    · simp only [Amounts.add, if_neg hr]
      by_cases hp : r = p
      · simp [Amounts.amount, Amounts.find?, hp]
      · simpa [Amounts.amount, Amounts.find?, hp] using ih

/-- Booking x from credit to debit raises the debit position by x, for any
distinct pair of accounts. -/
theorem Amounts.amount_book_debit (m : Amounts) {c d : Account} (x : Dec) (k : Commodity)
    (h : c ≠ d) :
    ((m.book c d x k).amount (d, k)).val = (m.amount (d, k)).val + x.val := by
  unfold Amounts.book
  rw [Amounts.amount_add_self]
  rw [Amounts.amount_add_other m x.neg (by simp [h])]

/-- C2: for every Value directive on an open account the balancer
synthesises a single-posting transaction, built by the posting constructor
from (valuation account, account, commodity, declared minus running
amount), carrying the valuation-adjustment description, and applies the
same booking, so that immediately afterwards the running amount of the
position equals the declared amount. -/
theorem C2_value_adjustment (oa : AccountSet) (m : Amounts) (v : ValueDir)
    (m' : Amounts) (t : Transaction)
    (hopen : AccountSet.isOpen oa v.account = true)
    (h : processValue oa m v = .ok (m', t)) :
    t.date = v.date
    ∧ t.description = "Valuation adjustment for " ++ v.commodity.name ++ " in " ++ v.account.name
    ∧ t.postings = [newPostingWithTargets (valuationAccountFor v.account) v.account
        v.commodity (v.amount.sub (m.amount (v.account, v.commodity))) [v.commodity]]
    ∧ (Amounts.amount m' (v.account, v.commodity)).val = v.amount.val := by
  unfold processValue at h
  rw [if_neg (by simp [hopen])] at h
  simp only [Except.ok.injEq, Prod.mk.injEq] at h
  obtain ⟨hm, ht⟩ := h
  subst hm
  subst ht
  refine ⟨rfl, rfl, rfl, ?_⟩
  have hne : valuationAccountFor v.account ≠ v.account := valuationAccountFor_ne v.account
  set delta := v.amount.sub (m.amount (v.account, v.commodity)) with hdelta
  by_cases hneg : delta.isNegative
  · have hpost : newPostingWithTargets (valuationAccountFor v.account) v.account
        v.commodity delta [v.commodity] =
        { credit := v.account, debit := valuationAccountFor v.account
        , commodity := v.commodity, amount := delta.neg, targets := [v.commodity] } := by
      unfold newPostingWithTargets newPosting
      rw [if_pos hneg]
    rw [hpost]
    simp only
    unfold Amounts.book
    rw [Amounts.amount_add_other _ delta.neg (by simp [hne])]
    rw [Amounts.amount_add_self]
    rw [Dec.val_neg, Dec.val_neg, hdelta, Dec.val_sub]
    ring
  · have hpost : newPostingWithTargets (valuationAccountFor v.account) v.account
        v.commodity delta [v.commodity] =
        { credit := valuationAccountFor v.account, debit := v.account
        , commodity := v.commodity, amount := delta, targets := [v.commodity] } := by
      unfold newPostingWithTargets newPosting
      rw [if_neg hneg]
    rw [hpost]
    simp only
    rw [Amounts.amount_book_debit m delta v.commodity hne]
    rw [hdelta, Dec.val_sub]
    ring

/-- The Value directive of the C2 witness: value Assets:Cash to 25.0 USD. -/
def c2val : ValueDir := ⟨2, cashAcc, ⟨250, 1⟩, usd⟩

/-- The valuation account of Assets:Cash. -/
def c2valAcc : Account := ⟨AccountType.EQUITY, ["Valuation", "Assets", "Cash"]⟩

/-- The amounts map after processing the C2 witness Value directive. -/
def c2mAfter : Amounts := [((c2valAcc, usd), ⟨-250, 1⟩), ((cashAcc, usd), ⟨250, 1⟩)]

/-- The transaction synthesised for the C2 witness Value directive. -/
def c2txn : Transaction :=
  { date := 2
  , description := "Valuation adjustment for USD in Assets:Cash"
  , tags := []
  , postings := [⟨c2valAcc, cashAcc, usd, ⟨250, 1⟩, ⟨0, 0⟩, [usd]⟩] }

/-- Witness for C2: the value-adjustment theorem applied to a concrete open
account and empty running amounts. -/
theorem C2_witness :
    c2txn.date = c2val.date
    ∧ c2txn.description =
        "Valuation adjustment for " ++ c2val.commodity.name ++ " in " ++ c2val.account.name
    ∧ c2txn.postings = [newPostingWithTargets (valuationAccountFor c2val.account) c2val.account
        c2val.commodity (c2val.amount.sub (Amounts.amount [] (c2val.account, c2val.commodity)))
        [c2val.commodity]]
    ∧ (Amounts.amount c2mAfter (c2val.account, c2val.commodity)).val = c2val.amount.val :=
  C2_value_adjustment [cashAcc] [] c2val c2mAfter c2txn (by decide) (by decide)

/-- C3: an assertion on an open account succeeds exactly when its position
key is present in the running amounts map with a value numerically equal to
the asserted amount; an assertion whose key is absent fails even when the
asserted amount is zero. -/
theorem C3_assertion_exactness :
    (∀ (oa : AccountSet) (m : Amounts) (a : AssertionDir),
        processAssertion oa m a = .ok () ↔
          (AccountSet.isOpen oa a.account = true
           ∧ ∃ va, Amounts.find? m (a.account, a.commodity) = some va
               ∧ va.equal a.amount = true))
    ∧ (∀ (oa : AccountSet) (m : Amounts) (a : AssertionDir),
        Amounts.find? m (a.account, a.commodity) = none →
        processAssertion oa m a ≠ .ok ()) := by
  have main : ∀ (oa : AccountSet) (m : Amounts) (a : AssertionDir),
      processAssertion oa m a = .ok () ↔
        (AccountSet.isOpen oa a.account = true
         ∧ ∃ va, Amounts.find? m (a.account, a.commodity) = some va
             ∧ va.equal a.amount = true) := by
    intro oa m a
    unfold processAssertion
    by_cases hopen : AccountSet.isOpen oa a.account = true
    · rw [if_neg (by simp [hopen])]
      cases hf : Amounts.find? m (a.account, a.commodity) with
      | none => simp [hopen]
      | some va =>
        dsimp only
        by_cases he : va.equal a.amount = true
        · simp [he, hopen]
        · rw [if_neg he]
          simp only [hopen, true_and]
          constructor
          · intro hh; exact absurd hh (by simp)
          · rintro ⟨vb, hvb, hvb2⟩
            injection hvb with hvb
            subst hvb
            exact absurd hvb2 he
    · rw [if_pos (by simpa using hopen)]
      constructor
      · intro hh; exact absurd hh (by simp)
      · rintro ⟨h1, _⟩; exact absurd h1 hopen
  refine ⟨main, ?_⟩
  intro oa m a hnone hok
  obtain ⟨_, va, hva, _⟩ := (main oa m a).mp hok
  rw [hnone] at hva
  exact Option.noConfusion hva

/-- The assertion of the C3 witness: Assets:Cash must hold 100 USD. -/
def c3assert : AssertionDir := ⟨2, cashAcc, ⟨100, 0⟩, usd⟩

/-- Witness for C3: on a map holding 100 USD (stored at a different but
numerically equal scale) the assertion passes; on the empty map an
assertion fails even though its expected amount is zero. -/
theorem C3_witness :
    (AccountSet.isOpen [cashAcc] c3assert.account = true
     ∧ ∃ va, Amounts.find? [((cashAcc, usd), ⟨1000, 1⟩)] (c3assert.account, c3assert.commodity)
         = some va ∧ va.equal c3assert.amount = true)
    ∧ processAssertion [cashAcc] [] ⟨2, cashAcc, ⟨0, 0⟩, usd⟩ ≠ .ok () :=
  ⟨(C3_assertion_exactness.1 [cashAcc] [((cashAcc, usd), ⟨1000, 1⟩)] c3assert).mp (by decide)
  , C3_assertion_exactness.2 [cashAcc] [] ⟨2, cashAcc, ⟨0, 0⟩, usd⟩ (by decide)⟩


/-- After filtering out every entry of one account, no key of that account
can be found in the map. -/
theorem Amounts.find?_filter_account_none (m : Amounts) (c : Account) (k : Commodity) :
    Amounts.find? (m.filter (fun e => ! decide (e.1.1 = c))) (c, k) = none := by
  induction m with
  | nil => simp [Amounts.find?]
  | cons e rest ih =>
    by_cases hc : e.1.1 = c
    · have hdec : (! decide (e.1.1 = c)) = false := by simp [hc]
      rw [List.filter_cons, hdec]
      simpa using ih
    · have hdec : (! decide (e.1.1 = c)) = true := by simp [hc]
      rw [List.filter_cons, hdec]
      simp only [if_true]
      have hne : e.1 ≠ (c, k) := by
        intro hh
        exact hc (by rw [hh])
      obtain ⟨q, v⟩ := e
      simpa [Amounts.find?, hne] using ih

/-- C4: a Close succeeds only when the account is in the open set and all
its positions are zero; on success every position of the account (zero or
nonzero) is deleted from the amounts map and the account is removed from
the open set; and when some position of the account is nonzero, the Close
fails with the nonzero-position error. -/
theorem C4_close_clears :
    (∀ (oa : AccountSet) (m : Amounts) (c : CloseDir) (oa' : AccountSet) (m' : Amounts),
        processClosing oa m c = .ok (oa', m') →
          oa.contains c.account = true
          ∧ (∀ e ∈ m, e.1.1 = c.account → e.2.isZero = true)
          ∧ (∀ k : Commodity, Amounts.find? m' (c.account, k) = none)
          ∧ oa' = oa.erase c.account)
    ∧ (∀ (oa : AccountSet) (m : Amounts) (c : CloseDir),
        (∃ e ∈ m, e.1.1 = c.account ∧ e.2.isZero = false) →
        processClosing oa m c = .error "account has nonzero position") := by
  constructor
  · intro oa m c oa' m' h
    unfold processClosing at h
    split at h
    · exact absurd h (by simp)
    · rename_i hguard
      obtain ⟨oa2, hcl, h2⟩ := exceptBind_ok h
      simp only [Except.ok.injEq, Prod.mk.injEq] at h2
      obtain ⟨hoa, hm⟩ := h2
      subst hoa
      subst hm
      unfold AccountSet.closeAcc at hcl
      split at hcl
      · rename_i hcont
        simp only [Except.ok.injEq] at hcl
        subst hcl
        refine ⟨by simpa using hcont, ?_, ?_, rfl⟩
        · intro e he hacc
          by_contra hnz
          apply hguard
          rw [List.any_eq_true]
          refine ⟨e, List.mem_filter.mpr ⟨he, by simp [hacc]⟩, ?_⟩
          simp only [Bool.not_eq_eq_eq_not, Bool.not_false]
          cases hh : e.2.isZero
          · rfl
          · exact absurd hh hnz
        · intro k
          exact Amounts.find?_filter_account_none m c.account k
      · exact absurd hcl (by simp)
  · intro oa m c hex
    obtain ⟨e, he, hacc, hnz⟩ := hex
    unfold processClosing
    rw [if_pos ?_]
    rw [List.any_eq_true]
    refine ⟨e, List.mem_filter.mpr ⟨he, by simp [hacc]⟩, by simp [hnz]⟩

/-- Witness for C4: closing Assets:Cash with a zero position clears the map
and the open set; closing it with a 5 USD position fails. -/
theorem C4_witness :
    (([cashAcc] : AccountSet).contains cashAcc = true
     ∧ Amounts.find? ([] : Amounts) (cashAcc, usd) = none
     ∧ ([cashAcc] : AccountSet).erase cashAcc = [])
    ∧ processClosing [cashAcc] [((cashAcc, usd), ⟨5, 0⟩)] ⟨3, cashAcc⟩ =
        .error "account has nonzero position" := by
  have h := C4_close_clears.1 [cashAcc] [((cashAcc, usd), ⟨0, 0⟩)] ⟨3, cashAcc⟩ [] []
    (by decide)
  exact ⟨⟨h.1, h.2.2.1 usd, h.2.2.2⟩
    , C4_close_clears.2 [cashAcc] [((cashAcc, usd), ⟨5, 0⟩)] ⟨3, cashAcc⟩
        ⟨((cashAcc, usd), ⟨5, 0⟩), by simp, by simp, by simp [Dec.isZero]⟩⟩

/-- Counterexample for C5: the claim extends the implicit-open rule for
EQUITY accounts to the membership check of the Close path, but
accounts.Close checks raw membership in the open set, so a Close of a
never-opened EQUITY account fails, both at the accounts.Close level and for
a whole Day carrying only that Close directive. -/
theorem C5_counterexample :
    equityMiscAcc.type = AccountType.EQUITY
    ∧ AccountSet.closeAcc ([] : AccountSet) equityMiscAcc =
        .error ("account " ++ equityMiscAcc.name ++ " is already closed")
    ∧ processClosing ([] : AccountSet) [] ⟨1, equityMiscAcc⟩ =
        .error ("account " ++ equityMiscAcc.name ++ " is already closed")
    ∧ processDay ⟨[], []⟩ { date := 1, closings := [⟨1, equityMiscAcc⟩] } =
        .error ("account " ++ equityMiscAcc.name ++ " is already closed") := by
  decide

/-- C5 as amended: an EQUITY account is considered open by IsOpen at all
times even when never opened — and IsOpen is the membership check used for
posting credit and debit accounts, Value accounts and Assertion accounts,
so none of those checks can fail for an EQUITY account — but the Close path
checks raw membership in the open set, so closing a never-opened account
(EQUITY included) fails. -/
theorem C5_equity_implicitly_open :
    (∀ (oa : AccountSet) (a : Account), a.type = AccountType.EQUITY →
        AccountSet.isOpen oa a = true)
    ∧ (∀ (oa : AccountSet) (m : Amounts) (p : Posting),
        p.credit.type = AccountType.EQUITY → p.debit.type = AccountType.EQUITY →
        bookPosting oa m p = .ok (m.book p.credit p.debit p.amount p.commodity))
    ∧ (∀ (oa : AccountSet) (m : Amounts) (v : ValueDir),
        v.account.type = AccountType.EQUITY →
        processValue oa m v = processValue (v.account :: oa) m v)
    ∧ (∀ (oa : AccountSet) (m : Amounts) (a : AssertionDir),
        a.account.type = AccountType.EQUITY →
        processAssertion oa m a = processAssertion (a.account :: oa) m a)
    ∧ (∀ (oa : AccountSet) (a : Account), oa.contains a = false →
        AccountSet.closeAcc oa a = .error ("account " ++ a.name ++ " is already closed")) := by
  have hopen : ∀ (oa : AccountSet) (a : Account), a.type = AccountType.EQUITY →
      AccountSet.isOpen oa a = true := by
    intro oa a h
    simp [AccountSet.isOpen, h]
  have hcons : ∀ (oa : AccountSet) (a : Account), AccountSet.isOpen (a :: oa) a = true := by
    intro oa a
    simp [AccountSet.isOpen]
  refine ⟨hopen, ?_, ?_, ?_, ?_⟩
  · intro oa m p hc hd
    unfold bookPosting
    rw [if_neg (by simp [hopen oa p.credit hc]), if_neg (by simp [hopen oa p.debit hd])]
  · intro oa m v hv
    unfold processValue
    rw [if_neg (by simp [hopen oa v.account hv]), if_neg (by simp [hcons oa v.account])]
  · intro oa m a ha
    unfold processAssertion
    rw [if_neg (by simp [hopen oa a.account ha]), if_neg (by simp [hcons oa a.account])]
  · intro oa a h
    unfold AccountSet.closeAcc
    rw [if_neg (by rw [h]; exact Bool.false_ne_true)]

/-- Witness for C5 as amended: a never-opened EQUITY account passes IsOpen,
a posting between never-opened EQUITY accounts books, and closing a
never-opened account fails. -/
theorem C5_witness :
    AccountSet.isOpen [] equityMiscAcc = true
    ∧ bookPosting [] [] ⟨equityMiscAcc, c2valAcc, usd, ⟨7, 0⟩, ⟨0, 0⟩, []⟩ =
        .ok (Amounts.book [] equityMiscAcc c2valAcc ⟨7, 0⟩ usd)
    ∧ AccountSet.closeAcc [] equityMiscAcc =
        .error ("account " ++ equityMiscAcc.name ++ " is already closed") :=
  ⟨C5_equity_implicitly_open.1 [] equityMiscAcc (by decide)
  , C5_equity_implicitly_open.2.1 [] [] ⟨equityMiscAcc, c2valAcc, usd, ⟨7, 0⟩, ⟨0, 0⟩, []⟩
      (by decide) (by decide)
  , C5_equity_implicitly_open.2.2.2.2 [] equityMiscAcc (by decide)⟩


/-! The valuation (gain) stage of journal.Balance (lib/journal/process.go,
valuateGains), active only when a valuation commodity is configured. -/

/-- Modelled from the spec: NormalizedPrices.Valuate (lib/journal prices,
not part of the source snapshot): valuate(commodity, amount) multiplies the
amount by the normalised price of the commodity and fails with a no-price
error when the commodity is absent from the normalisation. -/
def valuate (np : Commodity → Option Dec) (k : Commodity) (amt : Dec) : Except String Dec :=
  match np k with
  | some p => .ok (amt.mul p)
  | none => .error ("no valuation found for commodity " ++ k.name)

/-- Modelled from the spec: PostingBuilder (lib/journal builders, not part
of the source snapshot).  Per the spec's posting invariant, a negative
amount at construction swaps credit and debit and negates (the value is
negated along with the amount so the posting keeps denoting the same
signed flow). -/
structure PostingBuilder where
  credit : Account
  debit : Account
  commodity : Commodity
  amount : Dec := Dec.ofInt 0
  value : Dec := Dec.ofInt 0
  targets : List Commodity := []

/-- Build of PostingBuilder. -/
def PostingBuilder.build (pb : PostingBuilder) : Posting :=
  if pb.amount.isNegative then
    { credit := pb.debit, debit := pb.credit, commodity := pb.commodity
    , amount := pb.amount.neg, value := pb.value.neg, targets := pb.targets }
  else
    { credit := pb.credit, debit := pb.debit, commodity := pb.commodity
    , amount := pb.amount, value := pb.value, targets := pb.targets }

/-- The gain transaction synthesised by valuateGains for position pos with
gain g on the given date. -/
def gainTransaction (date : ℕ) (pos : Position) (g : Dec) : Transaction :=
  { date := date
  , description := "Adjust value of " ++ pos.2.name ++ " in account " ++ pos.1.name
  , tags := []
  , postings := [PostingBuilder.build
      { credit := valuationAccountFor pos.1, debit := pos.1, commodity := pos.2
      , amount := Dec.ofInt 0, value := g, targets := [pos.2] }] }

/-- One iteration of the valuateGains loop of journal.Balance
(lib/journal/process.go): positions in the valuation commodity and
non-asset/liability positions are skipped; otherwise the target value of
the position is computed from the day's normalised prices, the gain is the
difference to the running values map, and exactly when the gain is nonzero
a gain transaction is appended and the values map is adjusted on both the
position and its valuation account. -/
def valuateGainsStep (v : Commodity) (np : Commodity → Option Dec) (date : ℕ)
    (acc : List Transaction × Amounts) (e : Position × Dec) :
    Except String (List Transaction × Amounts) :=
  let (txns, values) := acc
  if e.1.2 = v then .ok (txns, values)
  else if ¬ isAL e.1.1 = true then .ok (txns, values)
  else
    match np e.1.2 with
    | none => .error ("no valuation found for commodity " ++ e.1.2.name)
    | some p =>
      let value := e.2.mul p
      let gain := value.sub (Amounts.amount values e.1)
      if gain.isZero then .ok (txns, values)
      else
        .ok (txns ++ [gainTransaction date e.1 gain]
            , (values.add e.1 gain).add (valuationAccountFor e.1.1, e.1.2) gain.neg)

/-- valuateGains of journal.Balance: the loop over all positions of the
Day's amounts. -/
def valuateGains (v : Commodity) (np : Commodity → Option Dec) (date : ℕ)
    (amounts : Amounts) (txns : List Transaction) (values : Amounts) :
    Except String (List Transaction × Amounts) :=
  amounts.foldlM (valuateGainsStep v np date) (txns, values)

/-- C6: for each asset/liability position (a, k) of the Day's amounts with
k different from the valuation commodity, the valuator computes
gain = valuate(k, amounts[(a,k)]) - values[(a,k)]; exactly when the gain is
nonzero it appends a transaction dated on the Day with the adjust-value
description and a single posting (valuation account, a, commodity k,
amount 0, value gain), and updates values[(a,k)] += gain and
values[(valuation account, k)] -= gain. -/
theorem C6_valuation_gains :
    (∀ (v : Commodity) (np : Commodity → Option Dec) (date : ℕ)
        (txns : List Transaction) (values : Amounts) (pos : Position) (amt p : Dec),
        isAL pos.1 = true → pos.2 ≠ v → np pos.2 = some p →
        valuateGainsStep v np date (txns, values) (pos, amt) =
          .ok (txns ++ (if ((amt.mul p).sub (Amounts.amount values pos)).isZero then []
                        else [gainTransaction date pos ((amt.mul p).sub (Amounts.amount values pos))])
              , if ((amt.mul p).sub (Amounts.amount values pos)).isZero then values
                else (values.add pos ((amt.mul p).sub (Amounts.amount values pos))).add
                  (valuationAccountFor pos.1, pos.2)
                  ((amt.mul p).sub (Amounts.amount values pos)).neg))
    ∧ (∀ (values : Amounts) (pos : Position) (g : Dec),
        (Amounts.amount ((values.add pos g).add (valuationAccountFor pos.1, pos.2) g.neg) pos).val
            = (Amounts.amount values pos).val + g.val
        ∧ (Amounts.amount ((values.add pos g).add (valuationAccountFor pos.1, pos.2) g.neg)
              (valuationAccountFor pos.1, pos.2)).val
            = (Amounts.amount values (valuationAccountFor pos.1, pos.2)).val - g.val) := by
  constructor
  · intro v np date txns values pos amt p hAL hv hp
    unfold valuateGainsStep
    simp only
    rw [if_neg hv, if_neg (by simp [hAL]), hp]
    simp only
    by_cases hz : ((amt.mul p).sub (Amounts.amount values pos)).isZero = true
    · rw [if_pos hz, if_pos hz, if_pos hz]
      rw [List.append_nil]
    · rw [if_neg hz, if_neg hz, if_neg hz]
  · intro values pos g
    have hne : valuationAccountFor pos.1 ≠ pos.1 := valuationAccountFor_ne pos.1
    constructor
    · rw [Amounts.amount_add_other _ g.neg (by
        intro hh
        exact hne (congrArg Prod.fst hh))]
      rw [Amounts.amount_add_self]
    · rw [Amounts.amount_add_self]
      rw [Amounts.amount_add_other _ g (by
        intro hh
        exact hne (congrArg Prod.fst hh).symm)]
      rw [Dec.val_neg]
      ring

/-- The foreign-currency asset account of the C6 witness. -/
def foreignAcc : Account := ⟨AccountType.ASSETS, ["Foreign"]⟩

/-- The normalised prices of the C6 witness: EUR is worth 1.1 USD. -/
def c6np : Commodity → Option Dec := fun k => if k = "EUR" then some ⟨11, 1⟩ else none

/-- Witness for C6: a 100 EUR asset position against an empty values map,
valuated in USD at 1.1, yields a gain of 110 USD: the step appends exactly
one gain transaction and books the gain symmetrically. -/
theorem C6_witness :
    valuateGainsStep "USD" c6np 9 ([], []) ((foreignAcc, "EUR"), ⟨100, 0⟩) =
      .ok (([] : List Transaction) ++
            (if (((⟨100, 0⟩ : Dec).mul ⟨11, 1⟩).sub (Amounts.amount [] (foreignAcc, "EUR"))).isZero
             then []
             else [gainTransaction 9 (foreignAcc, "EUR")
                     (((⟨100, 0⟩ : Dec).mul ⟨11, 1⟩).sub (Amounts.amount [] (foreignAcc, "EUR")))])
          , if (((⟨100, 0⟩ : Dec).mul ⟨11, 1⟩).sub (Amounts.amount [] (foreignAcc, "EUR"))).isZero
            then ([] : Amounts)
            else (Amounts.add [] (foreignAcc, "EUR")
                    (((⟨100, 0⟩ : Dec).mul ⟨11, 1⟩).sub (Amounts.amount [] (foreignAcc, "EUR")))).add
              (valuationAccountFor foreignAcc, "EUR")
              (((⟨100, 0⟩ : Dec).mul ⟨11, 1⟩).sub (Amounts.amount [] (foreignAcc, "EUR"))).neg)
    ∧ (Amounts.amount ((Amounts.add [] (foreignAcc, "EUR") ⟨1100, 1⟩).add
          (valuationAccountFor foreignAcc, "EUR") (⟨1100, 1⟩ : Dec).neg) (foreignAcc, "EUR")).val
        = (Amounts.amount [] (foreignAcc, "EUR")).val + (⟨1100, 1⟩ : Dec).val :=
  ⟨C6_valuation_gains.1 "USD" c6np 9 [] [] (foreignAcc, "EUR") ⟨100, 0⟩ ⟨11, 1⟩
      (by decide) (by decide) (by decide)
  , (C6_valuation_gains.2 [] (foreignAcc, "EUR") ⟨1100, 1⟩).1⟩


/-! Accrual expansion (Accrual.Expand of lib/journal/ast/directive.go). -/

/-- Modelled from the spec: shopspring QuoRem with precision 1, as used by
Accrual.Expand: dividing a decimal by the integer n yields a quotient
truncated toward zero to one decimal place and the exact remainder, with
a = n * q + r. -/
def Dec.quoRem1 (a : Dec) (n : ℕ) : Dec × Dec :=
  let q : Dec := ⟨Int.tdiv (10 * a.num) ((n : ℤ) * 10 ^ a.exp), 1⟩
  (q, a.sub (q.mul (Dec.ofInt n)))

theorem Dec.quoRem1_val (a : Dec) (n : ℕ) :
    (a.quoRem1 n).2.val = a.val - n * (a.quoRem1 n).1.val := by
  unfold Dec.quoRem1
  simp only [Dec.val_sub, Dec.val_mul, Dec.val_ofInt]
  push_cast
  ring

/-- The leg computation of Accrual.Expand: from the accrual account and the
single posting, the (credit, debit) pair of the one-off transaction on the
original date and the (credit, debit) pair of the per-period transactions,
following the asset/liability versus income/expense case split of the
source. -/
def accrualLegs (accrAcc : Account) (p : Posting) : (Account × Account) × (Account × Account) :=
  if isAL p.credit = true ∧ isIE p.debit = true then
    ((p.credit, accrAcc), (accrAcc, p.debit))
  else if isIE p.credit = true ∧ isAL p.debit = true then
    ((accrAcc, p.debit), (p.credit, accrAcc))
  else if isIE p.credit = true ∧ isIE p.debit = true then
    ((accrAcc, accrAcc), (p.credit, p.debit))
  else
    ((p.credit, p.debit), (accrAcc, accrAcc))

/-- The per-period transactions of Accrual.Expand: one transaction per
period end date, posting the share between the multi legs, with the
division remainder added on the first period (index 0). -/
def expandMulti (cr dr : Account) (k : Commodity) (t : Transaction) (share rem : Dec)
    (n : ℕ) : List ℕ → ℕ → List Transaction
  | [], _ => []
  | pd :: rest, i =>
    { date := pd
    , description := t.description ++ " (accrual " ++ toString (i + 1) ++ "/" ++ toString n ++ ")"
    , tags := t.tags
    , postings := [newPosting cr dr k (if i = 0 then share.add rem else share)] }
      :: expandMulti cr dr k t share rem n rest (i + 1)

/-- Accrual.Expand of directive.go, with the period list (the result of
date.Periods) taken as a parameter: per-period transactions between the
multi legs when they differ, followed by the one-off transaction on the
original date between the single legs when they differ. -/
def accrualExpand (periods : List ℕ) (accrAcc : Account) (t : Transaction) :
    List Transaction :=
  match t.postings with
  | [] => []
  | posting :: _ =>
    (if (accrualLegs accrAcc posting).2.1 ≠ (accrualLegs accrAcc posting).2.2 then
        expandMulti (accrualLegs accrAcc posting).2.1 (accrualLegs accrAcc posting).2.2
          posting.commodity t (posting.amount.quoRem1 periods.length).1
          (posting.amount.quoRem1 periods.length).2 periods.length periods 0
     else [])
    ++ (if (accrualLegs accrAcc posting).1.1 ≠ (accrualLegs accrAcc posting).1.2 then
        [{ date := t.date, description := t.description, tags := t.tags
         , postings := [newPosting (accrualLegs accrAcc posting).1.1
             (accrualLegs accrAcc posting).1.2 posting.commodity posting.amount] }]
       else [])

/-- The signed flow of a posting from account c to account d: its amount
when it credits c and debits d, the negated amount for the reversed
orientation, zero otherwise. -/
def flowQ (p : Posting) (c d : Account) : ℚ :=
  if p.credit = c ∧ p.debit = d then p.amount.val
  else if p.credit = d ∧ p.debit = c then -(p.amount.val)
  else 0

/-- The signed flow of a transaction from c to d, summed over its postings. -/
def txnFlowQ (t : Transaction) (c d : Account) : ℚ :=
  (t.postings.map (fun p => flowQ p c d)).sum

theorem flowQ_newPosting {c d : Account} (k : Commodity) (a : Dec) (h : c ≠ d) :
    flowQ (newPosting c d k a) c d = a.val := by
  unfold newPosting flowQ
  by_cases hneg : a.isNegative
  · rw [if_pos hneg]
    simp only
    rw [if_neg (by rintro ⟨h1, _⟩; exact h h1.symm)]
    simp [Dec.val_neg]
  · rw [if_neg hneg]
    simp

theorem expandMulti_length (cr dr : Account) (k : Commodity) (t : Transaction)
    (share rem : Dec) (n : ℕ) :
    ∀ (periods : List ℕ) (i : ℕ), (expandMulti cr dr k t share rem n periods i).length
      = periods.length := by
  intro periods
  induction periods with
  | nil => intro i; simp [expandMulti]
  | cons pd rest ih => intro i; simp [expandMulti, ih]

theorem expandMulti_map_flow_pos {cr dr : Account} (k : Commodity) (t : Transaction)
    (share rem : Dec) (n : ℕ) (h : cr ≠ dr) :
    ∀ (periods : List ℕ) (i : ℕ), 0 < i →
      (expandMulti cr dr k t share rem n periods i).map (fun tx => txnFlowQ tx cr dr)
        = List.replicate periods.length share.val := by
  intro periods
  induction periods with
  | nil => intro i _; simp [expandMulti]
  | cons pd rest ih =>
    intro i hi
    simp only [expandMulti, List.map_cons, List.length_cons, List.replicate_succ,
      List.cons.injEq]
    constructor
    · simp only [txnFlowQ, List.map_cons, List.map_nil, List.sum_cons, List.sum_nil]
      rw [if_neg (by omega)]
      rw [flowQ_newPosting k share h]
      ring
    · exact ih (i + 1) (by omega)

theorem expandMulti_map_flow_zero {cr dr : Account} (k : Commodity) (t : Transaction)
    (share rem : Dec) (n : ℕ) (h : cr ≠ dr) (pd : ℕ) (rest : List ℕ) :
    (expandMulti cr dr k t share rem n (pd :: rest) 0).map (fun tx => txnFlowQ tx cr dr)
      = (share.add rem).val :: List.replicate rest.length share.val := by
  simp only [expandMulti, List.map_cons, List.cons.injEq]
  constructor
  · simp only [txnFlowQ, List.map_cons, List.map_nil, List.sum_cons, List.sum_nil, if_true]
    rw [flowQ_newPosting k (share.add rem) h]
    ring
  · exact expandMulti_map_flow_pos k t share rem n h rest 1 (by omega)

theorem expandMulti_map_date (cr dr : Account) (k : Commodity) (t : Transaction)
    (share rem : Dec) (n : ℕ) :
    ∀ (periods : List ℕ) (i : ℕ),
      (expandMulti cr dr k t share rem n periods i).map (fun tx => tx.date) = periods := by
  intro periods
  induction periods with
  | nil => intro i; simp [expandMulti]
  | cons pd rest ih =>
    intro i
    simp only [expandMulti, List.map_cons, List.cons.injEq]
    exact ⟨trivial, ih (i + 1)⟩

/-- C7: for an accrual expansion over N periods of a transaction whose
single posting carries amount A and whose multi legs differ, the N
period-dated transactions carry the flows share + rem, share, ..., share
(with share the 1-decimal-truncated quotient A / N and rem the division
remainder, placed on the first period), their dates are the period end
dates, and the flows sum exactly to A. -/
theorem C7_accrual_conservation (periods : List ℕ) (accrAcc : Account)
    (t : Transaction) (p : Posting)
    (hp : t.postings = [p])
    (hn : 0 < periods.length)
    (hm : (accrualLegs accrAcc p).2.1 ≠ (accrualLegs accrAcc p).2.2) :
    ((accrualExpand periods accrAcc t).take periods.length).map
        (fun tx => txnFlowQ tx (accrualLegs accrAcc p).2.1 (accrualLegs accrAcc p).2.2)
      = ((p.amount.quoRem1 periods.length).1.add (p.amount.quoRem1 periods.length).2).val
          :: List.replicate (periods.length - 1) (p.amount.quoRem1 periods.length).1.val
    ∧ ((accrualExpand periods accrAcc t).take periods.length).map (fun tx => tx.date)
      = periods
    ∧ (((accrualExpand periods accrAcc t).take periods.length).map
        (fun tx => txnFlowQ tx (accrualLegs accrAcc p).2.1 (accrualLegs accrAcc p).2.2)).sum
      = p.amount.val := by
  obtain ⟨pd, rest, hper⟩ : ∃ pd rest, periods = pd :: rest := by
    cases periods with
    | nil => simp at hn
    | cons pd rest => exact ⟨pd, rest, rfl⟩
  subst hper
  have hexp : accrualExpand (pd :: rest) accrAcc t =
      expandMulti (accrualLegs accrAcc p).2.1 (accrualLegs accrAcc p).2.2 p.commodity t
          (p.amount.quoRem1 (pd :: rest).length).1 (p.amount.quoRem1 (pd :: rest).length).2
          (pd :: rest).length (pd :: rest) 0
        ++ (if (accrualLegs accrAcc p).1.1 ≠ (accrualLegs accrAcc p).1.2 then
            [{ date := t.date, description := t.description, tags := t.tags
             , postings := [newPosting (accrualLegs accrAcc p).1.1 (accrualLegs accrAcc p).1.2
                 p.commodity p.amount] }]
           else []) := by
    unfold accrualExpand
    rw [hp]
    simp only [if_pos hm]
  have hlen : (expandMulti (accrualLegs accrAcc p).2.1 (accrualLegs accrAcc p).2.2 p.commodity t
      (p.amount.quoRem1 (pd :: rest).length).1 (p.amount.quoRem1 (pd :: rest).length).2
      (pd :: rest).length (pd :: rest) 0).length = (pd :: rest).length :=
    expandMulti_length _ _ _ _ _ _ _ _ _
  have htake : (accrualExpand (pd :: rest) accrAcc t).take (pd :: rest).length =
      expandMulti (accrualLegs accrAcc p).2.1 (accrualLegs accrAcc p).2.2 p.commodity t
        (p.amount.quoRem1 (pd :: rest).length).1 (p.amount.quoRem1 (pd :: rest).length).2
        (pd :: rest).length (pd :: rest) 0 := by
    rw [hexp]
    exact List.take_left' hlen
  rw [htake]
  have hflow := expandMulti_map_flow_zero p.commodity t
    (p.amount.quoRem1 (pd :: rest).length).1 (p.amount.quoRem1 (pd :: rest).length).2
    (pd :: rest).length hm pd rest
  have hdate := expandMulti_map_date (accrualLegs accrAcc p).2.1 (accrualLegs accrAcc p).2.2
    p.commodity t (p.amount.quoRem1 (pd :: rest).length).1
    (p.amount.quoRem1 (pd :: rest).length).2 (pd :: rest).length (pd :: rest) 0
  refine ⟨by simpa using hflow, hdate, ?_⟩
  rw [hflow]
  simp only [List.sum_cons, List.sum_replicate, smul_eq_mul, Dec.val_add]
  have hremval : (p.amount.quoRem1 (pd :: rest).length).2.val =
      p.amount.val - ((pd :: rest).length : ℚ) *
        (p.amount.quoRem1 (pd :: rest).length).1.val := by
    have := Dec.quoRem1_val p.amount (pd :: rest).length
    simpa using this
  rw [hremval]
  simp only [List.length_cons]
  push_cast
  ring

/-- The accounts of the C7 witness: a bank asset, a rent expense, and an
accrual liability account. -/
def bankAcc : Account := ⟨AccountType.ASSETS, ["Bank"]⟩

/-- Rent expense account of the C7 witness. -/
def rentAcc : Account := ⟨AccountType.EXPENSES, ["Rent"]⟩

/-- Accrual liability account of the C7 witness. -/
def accrualAcc : Account := ⟨AccountType.LIABILITIES, ["Accrual"]⟩

/-- The single-posting transaction of the C7 witness: 1200 USD from
Assets:Bank to Expenses:Rent. -/
def c7txn : Transaction :=
  { date := 5, description := "Rent", tags := []
  , postings := [⟨bankAcc, rentAcc, usd, ⟨1200, 0⟩, ⟨0, 0⟩, []⟩] }

/-- The posting of the C7 witness transaction. -/
def c7posting : Posting := ⟨bankAcc, rentAcc, usd, ⟨1200, 0⟩, ⟨0, 0⟩, []⟩

/-- Witness for C7: expanding 1200 USD over two periods plants the halves
600.0 and 600.0 on the period dates and conserves the total. -/
theorem C7_witness :
    ((accrualExpand [31, 59] accrualAcc c7txn).take 2).map
        (fun tx => txnFlowQ tx (accrualLegs accrualAcc c7posting).2.1
          (accrualLegs accrualAcc c7posting).2.2)
      = (((c7posting.amount.quoRem1 2).1.add ((c7posting.amount.quoRem1 2).2)).val
          :: List.replicate 1 (c7posting.amount.quoRem1 2).1.val)
    ∧ ((accrualExpand [31, 59] accrualAcc c7txn).take 2).map (fun tx => tx.date) = [31, 59]
    ∧ (((accrualExpand [31, 59] accrualAcc c7txn).take 2).map
        (fun tx => txnFlowQ tx (accrualLegs accrualAcc c7posting).2.1
          (accrualLegs accrualAcc c7posting).2.2)).sum
      = c7posting.amount.val :=
  C7_accrual_conservation [31, 59] accrualAcc c7txn c7posting (by decide) (by decide) (by decide)


/-! The stable transaction order and the two balancer behaviours around it.
The comparison itself (ast.CompareTransactions and compare.Sort) is not
part of the source snapshot. -/

/-- The lexicographic key of a posting in the stable transaction order:
credit account name, debit account name, amount (numerically), commodity
name.  String order is realised on the character lists. -/
def postingKey (p : Posting) : Lex (List Char × Lex (List Char × Lex (ℚ × List Char))) :=
  toLex (p.credit.name.data, toLex (p.debit.name.data, toLex (p.amount.val, p.commodity.name.data)))

/-- Modelled from the spec: the key of ast.CompareTransactions (not part of
the source snapshot): transactions are ordered by (date, description,
postings in lexicographic order). -/
def txKey (t : Transaction) :
    Lex (ℕ × Lex (List Char × List (Lex (List Char × Lex (List Char × Lex (ℚ × List Char)))))) :=
  toLex (t.date, toLex (t.description.data, t.postings.map postingKey))

/-- The stable order on transactions, as a relation. -/
def txLe (a b : Transaction) : Prop := txKey a ≤ txKey b

instance txLe.decidableRel : DecidableRel txLe := fun a b =>
  inferInstanceAs (Decidable (txKey a ≤ txKey b))

instance txLe.isTotal : IsTotal Transaction txLe :=
  ⟨fun a b => le_total (txKey a) (txKey b)⟩

instance txLe.isTrans : IsTrans Transaction txLe :=
  ⟨fun _ _ _ hab hbc => le_trans hab hbc⟩

/-- processValues of the slice-variant balancer (Balancer.Process): the
same Value handling as Process2, but the synthesised transactions are
appended to the Day's transactions and the whole list is re-sorted by the
stable order (compare.Sort with ast.CompareTransactions in the source,
modelled as an insertion sort by the stable key). -/
def processValuesSlice (oa : AccountSet) (m : Amounts) (d : Day) :
    Except String (Amounts × Day) := do
  let (m', ts) ← processValues oa m d.values
  .ok (m', { d with transactions := List.insertionSort txLe (d.transactions ++ ts) })

/-- The witness day for the ordering claims: one transaction described Z
and one Value directive whose synthesised adjustment sorts before it. -/
def c8day : Day :=
  { date := 4
  , openings := [⟨4, cashAcc⟩, ⟨4, salaryAcc⟩]
  , transactions := [⟨4, "Z", [], [⟨salaryAcc, cashAcc, usd, ⟨50, 0⟩, ⟨0, 0⟩, []⟩]⟩]
  , values := [⟨4, cashAcc, ⟨60, 0⟩, usd⟩] }

/-- Counterexample for C8: Process2 of balancer.go appends the synthesised
value-adjustment transaction after the Day's transactions without
re-sorting, so the emitted Day is not in the stable order: the adjustment
(description starting with Valuation) follows the transaction described Z. -/
theorem C8_counterexample :
    (processDay ⟨[], []⟩ c8day).map (fun r => decide (r.2.transactions.Sorted txLe)) =
      .ok false := by
  decide

/-- C8 as amended: the Process2 balancer emits the Day's original
transactions as a prefix, with the synthesised value-adjustment
transactions appended at the end and no re-sort; the slice-variant
balancer (Balancer.Process) re-sorts the Day's transactions after
processing the Value directives, so the Days it emits are in the stable
order. -/
theorem C8_sorting :
    (∀ (st : BState) (d : Day) (r : BState × Day),
        processDay st d = .ok r →
        r.2.transactions.take d.transactions.length = d.transactions)
    ∧ (∀ (oa : AccountSet) (m : Amounts) (d : Day) (r : Amounts × Day),
        processValuesSlice oa m d = .ok r →
        r.2.transactions.Sorted txLe) := by
  constructor
  · intro st d r h
    unfold processDay at h
    obtain ⟨oa, ho, h1⟩ := exceptBind_ok h
    obtain ⟨m1, ht, h2⟩ := exceptBind_ok h1
    obtain ⟨r1, hv, h3⟩ := exceptBind_ok h2
    obtain ⟨m2, vtxns⟩ := r1
    simp only at h3
    obtain ⟨u, ha, h4⟩ := exceptBind_ok h3
    obtain ⟨r2, hc, h5⟩ := exceptBind_ok h4
    obtain ⟨oa', m3⟩ := r2
    simp only [Except.ok.injEq] at h5
    subst h5
    simp only
    exact List.take_left' rfl
  · intro oa m d r h
    unfold processValuesSlice at h
    obtain ⟨r1, hv, h2⟩ := exceptBind_ok h
    obtain ⟨m1, ts⟩ := r1
    simp only [Except.ok.injEq] at h2
    subst h2
    simp only
    exact List.sorted_insertionSort txLe (d.transactions ++ ts)

/-- The balancer state emitted by Process2 for the C8 witness day. -/
def c8st : BState :=
  ⟨[salaryAcc, cashAcc]
  , [((salaryAcc, usd), ⟨-50, 0⟩), ((cashAcc, usd), ⟨60, 0⟩), ((c2valAcc, usd), ⟨-10, 0⟩)]⟩

/-- The day emitted by Process2 for the C8 witness day: the original
transaction first, the synthesised adjustment appended. -/
def c8emitted : Day :=
  { date := 4
  , openings := [⟨4, cashAcc⟩, ⟨4, salaryAcc⟩]
  , transactions := [⟨4, "Z", [], [⟨salaryAcc, cashAcc, usd, ⟨50, 0⟩, ⟨0, 0⟩, []⟩]⟩
      , { date := 4
        , description := "Valuation adjustment for USD in Assets:Cash"
        , tags := []
        , postings := [⟨c2valAcc, cashAcc, usd, ⟨10, 0⟩, ⟨0, 0⟩, [usd]⟩] }]
  , values := [⟨4, cashAcc, ⟨60, 0⟩, usd⟩]
  , amounts := [((salaryAcc, usd), ⟨-50, 0⟩), ((cashAcc, usd), ⟨60, 0⟩), ((c2valAcc, usd), ⟨-10, 0⟩)] }

/-- The original transaction of the C8 witness day. -/
def c8tZ : Transaction :=
  { date := 4, description := "Z", tags := []
  , postings := [⟨salaryAcc, cashAcc, usd, ⟨50, 0⟩, ⟨0, 0⟩, []⟩] }

/-- The adjustment synthesised by the slice-variant run of the C8 witness
(against empty running amounts, so the full 60 USD). -/
def c8adj60 : Transaction :=
  { date := 4
  , description := "Valuation adjustment for USD in Assets:Cash"
  , tags := []
  , postings := [⟨c2valAcc, cashAcc, usd, ⟨60, 0⟩, ⟨0, 0⟩, [usd]⟩] }

/-- The day emitted by the slice-variant processValues for the C8 witness
day: the synthesised adjustment now sorts before the Z transaction. -/
def c8sortedDay : Day :=
  { date := 4
  , openings := [⟨4, cashAcc⟩, ⟨4, salaryAcc⟩]
  , transactions := [c8adj60, c8tZ]
  , values := [⟨4, cashAcc, ⟨60, 0⟩, usd⟩] }

/-- Witness for C8 as amended: on the witness day, Process2 keeps the
original transaction list as a prefix, and the slice variant emits a Day
whose transactions are sorted in the stable order. -/
theorem C8_witness :
    c8emitted.transactions.take c8day.transactions.length = c8day.transactions
    ∧ c8sortedDay.transactions.Sorted txLe :=
  ⟨C8_sorting.1 ⟨[], []⟩ c8day (c8st, c8emitted) (by decide)
  , C8_sorting.2 [cashAcc] [] c8day
      ([((c2valAcc, usd), ⟨-60, 0⟩), ((cashAcc, usd), ⟨60, 0⟩)], c8sortedDay) (by decide)⟩


/-! Transaction.Less and Posting.Less of lib/journal/ast/directive.go.
The posting loop of Transaction.Less never increments its index, so the
function does not terminate when the leading postings of the two
transactions are equal; it is embedded with explicit fuel, where the value
none stands for running out of fuel at every bound, that is,
nontermination. -/

/-- Posting.Equal of directive.go: credit, debit and commodity by interned
identity, amount numerically. -/
def postingEqual (p p2 : Posting) : Bool :=
  decide (p.credit = p2.credit) && decide (p.debit = p2.debit)
    && p.amount.equal p2.amount && decide (p.commodity = p2.commodity)

/-- Posting.Less of directive.go: credit name, debit name, amount
(numerically), commodity name.  Go string order is realised on the
character lists. -/
def postingLess (p p2 : Posting) : Bool :=
  if p.credit.name ≠ p2.credit.name then decide (p.credit.name.data < p2.credit.name.data)
  else if p.debit.name ≠ p2.debit.name then decide (p.debit.name.data < p2.debit.name.data)
  else if ¬ p.amount.equal p2.amount = true then p.amount.lessThan p2.amount
  else decide (p.commodity.name.data < p2.commodity.name.data)

/-- The posting loop of Transaction.Less, with fuel.  Exactly as in the
source, when the postings at index i are equal the loop continues with i
unchanged; the source therefore loops forever, and this embedding returns
none for every amount of fuel. -/
def lessPostingsLoop (ps qs : List Posting) : ℕ → ℕ → Option Bool
  | _, 0 => none
  | i, fuel + 1 =>
    if h : i < ps.length ∧ i < qs.length then
      if postingEqual (ps.get ⟨i, h.1⟩) (qs.get ⟨i, h.2⟩) then
        lessPostingsLoop ps qs i fuel
      else some (postingLess (ps.get ⟨i, h.1⟩) (qs.get ⟨i, h.2⟩))
    else some (decide (ps.length < qs.length))

/-- Transaction.Less of directive.go, with fuel for its posting loop:
date, then description, then the posting loop, then the posting count. -/
def transactionLessFuel (fuel : ℕ) (t t2 : Transaction) : Option Bool :=
  if t.date ≠ t2.date then some (decide (t.date < t2.date))
  else if t.description ≠ t2.description then
    some (decide (t.description.data < t2.description.data))
  else lessPostingsLoop t.postings t2.postings 0 fuel

/-- The failing input of C9: a transaction with one posting, compared with
an identical transaction (equal date, description and leading posting). -/
def c9txn : Transaction :=
  { date := 7, description := "Twin", tags := []
  , postings := [⟨cashAcc, salaryAcc, usd, ⟨3, 0⟩, ⟨0, 0⟩, []⟩] }

/-- A transaction differing from the C9 failing input in its first
posting, on which the comparison does answer. -/
def c9txn2 : Transaction :=
  { date := 7, description := "Twin", tags := []
  , postings := [⟨bankAcc, salaryAcc, usd, ⟨3, 0⟩, ⟨0, 0⟩, []⟩] }

/-- C9: the claim states that the transaction comparison is total and
terminating for every pair, including pairs whose leading postings are
equal.  The code contradicts it: the posting loop of Transaction.Less
never increments its index, so on two transactions with equal date, equal
description and equal first postings the comparison runs forever — the
fuel embedding returns none for every fuel bound — while it does answer
as soon as the leading postings differ. -/
theorem C9_less_nontermination :
    (∀ fuel : ℕ, transactionLessFuel fuel c9txn c9txn = none)
    ∧ transactionLessFuel 1 c9txn c9txn2 = some false := by
  constructor
  · have hred : ∀ f : ℕ, transactionLessFuel f c9txn c9txn =
        lessPostingsLoop c9txn.postings c9txn.postings 0 f := by
      intro f
      unfold transactionLessFuel
      rw [if_neg (by decide), if_neg (by decide)]
    have hloop : ∀ f : ℕ, lessPostingsLoop c9txn.postings c9txn.postings 0 f = none := by
      intro f
      induction f with
      | zero => rfl
      | succ n ih =>
        have hstep : lessPostingsLoop c9txn.postings c9txn.postings 0 (n + 1) =
            lessPostingsLoop c9txn.postings c9txn.postings 0 n := rfl
        rw [hstep]
        exact ih
    intro fuel
    rw [hred fuel]
    exact hloop fuel
  · decide

/-! The account and commodity filter of the AST assembler
(ASTBuilder.Source2, in the process package). -/

/-- journal.Filter: the pair of regular-expression predicates over
accounts and commodities, modelled as boolean predicates. -/
structure JFilter where
  matchAccount : Account → Bool
  matchCommodity : Commodity → Bool

/-- Posting.Matches of directive.go: either account matches, and the
commodity matches. -/
def postingMatches (p : Posting) (f : JFilter) : Bool :=
  (f.matchAccount p.credit || f.matchAccount p.debit) && f.matchCommodity p.commodity

/-- The directive kinds of the Source2 dispatch that are subject to the
account/commodity filter. -/
inductive FilterableDirective
  | assertion (a : AssertionDir)
  | value (v : ValueDir)
  | close (c : CloseDir)

/-- The filter decision of the Source2 switch: an Assertion or Value is
added only when both its account and its commodity match; a Close is added
when its account matches (its commodity predicate is never consulted —
a Close has no commodity). -/
def source2Keeps (f : JFilter) : FilterableDirective → Bool
  | .assertion a => f.matchAccount a.account && f.matchCommodity a.commodity
  | .value v => f.matchAccount v.account && f.matchCommodity v.commodity
  | .close c => f.matchAccount c.account

/-- The transaction arm of the Source2 switch: postings are filtered in
place, and the transaction is dropped when no posting survives. -/
def source2FilterTransaction (f : JFilter) (t : Transaction) : Option Transaction :=
  let filtered := t.postings.filter (fun p => postingMatches p f)
  if filtered.length = 0 then none
  else if filtered.length < t.postings.length then some { t with postings := filtered }
  else some t

/-- C10: in the Source2 filter a Close directive is retained exactly when
its account matches the account predicate — the commodity predicate is
never consulted, so any two filters agreeing on accounts agree on Close
directives — whereas an Assertion or a Value directive is retained only
when both its account and its commodity match. -/
theorem C10_filter_dispatch :
    (∀ (f : JFilter) (c : CloseDir), source2Keeps f (.close c) = f.matchAccount c.account)
    ∧ (∀ (f g : JFilter) (c : CloseDir), f.matchAccount = g.matchAccount →
        source2Keeps f (.close c) = source2Keeps g (.close c))
    ∧ (∀ (f : JFilter) (a : AssertionDir),
        source2Keeps f (.assertion a)
          = (f.matchAccount a.account && f.matchCommodity a.commodity))
    ∧ (∀ (f : JFilter) (v : ValueDir),
        source2Keeps f (.value v)
          = (f.matchAccount v.account && f.matchCommodity v.commodity)) := by
  refine ⟨fun f c => rfl, ?_, fun f a => rfl, fun f v => rfl⟩
  intro f g c h
  simp [source2Keeps, h]

/-- The all-pass filter of the C10 witness. -/
def c10f : JFilter := ⟨fun _ => true, fun _ => true⟩

/-- A filter agreeing with the all-pass filter on accounts but rejecting
every commodity. -/
def c10g : JFilter := ⟨fun _ => true, fun _ => false⟩

/-- Witness for C10: under the commodity-rejecting filter a Close is still
retained, it agrees with the all-pass filter on Close directives, and an
Assertion under the same filter is dropped. -/
theorem C10_witness :
    source2Keeps c10g (.close ⟨1, cashAcc⟩) = c10g.matchAccount cashAcc
    ∧ source2Keeps c10f (.close ⟨1, cashAcc⟩) = source2Keeps c10g (.close ⟨1, cashAcc⟩)
    ∧ source2Keeps c10g (.assertion ⟨1, cashAcc, ⟨1, 0⟩, usd⟩)
        = (c10g.matchAccount cashAcc && c10g.matchCommodity usd) :=
  ⟨C10_filter_dispatch.1 c10g ⟨1, cashAcc⟩
  , C10_filter_dispatch.2.1 c10f c10g ⟨1, cashAcc⟩ rfl
  , C10_filter_dispatch.2.2.1 c10g ⟨1, cashAcc, ⟨1, 0⟩, usd⟩⟩

end Knut
